import Mathlib

/-!
Verification of the `trackertool` sample-file codec and editor.

The Rust program (src/main.rs) is shallowly embedded here:
  * a byte stream is a `List Nat` consumed from the front (each element is one
    byte; all reachable values are below 256);
  * `std::io::Read::read_exact` becomes `read_exact`, returning the bytes read
    and the remaining stream, or `none` at end of stream;
  * writers accumulate the emitted bytes; a write function returns the bytes
    it emitted together with a success flag (`false` models an `Err` return,
    after which the Rust code stops writing);
  * `u16/u32/u64::from_be_bytes` / `to_be_bytes` become `beVal` / `beBytes`;
  * fallible reads return `Option` (`none` models any `std::io::Error`).
-/

namespace Tracker

/-- Big-endian value of a byte list, as `uNN::from_be_bytes` computes it. -/
def beVal (bs : List Nat) : Nat :=
  bs.foldl (fun a b => a * 256 + b) 0

/-- Big-endian encoding of `n` into `w` bytes, as `uNN::to_be_bytes`
(the value is reduced modulo `256 ^ w`, matching fixed-width integers). -/
def beBytes : Nat → Nat → List Nat
  | 0, _ => []
  | w + 1, n => beBytes w (n / 256) ++ [n % 256]

/-- Interpretation of a 4-byte big-endian value as `i32::from_be_bytes`:
two's-complement, so values at or above `2^31` wrap to negatives. -/
def toSigned32 (n : Nat) : Int :=
  if n < 2147483648 then (n : Int) else (n : Int) - 4294967296

/-- The 4 bytes `i32::to_be_bytes` emits for `d` (two's-complement). -/
def i32Bytes (d : Int) : List Nat :=
  beBytes 4 (d % 4294967296).toNat

/-- `Read::read_exact` on a byte stream: take `n` bytes or fail at end of
stream. -/
def read_exact (n : Nat) (s : List Nat) : Option (List Nat × List Nat) :=
  if n ≤ s.length then some (s.take n, s.drop n) else none

/-- Whether `b` is a UTF-8 continuation byte (`0x80..=0xBF`). -/
def contByte (b : Nat) : Bool :=
  0x80 ≤ b && b ≤ 0xBF

/-- UTF-8 validity of a byte sequence, as `String::from_utf8` checks it
(Unicode Table 3-7: no overlong forms, no surrogates, maximum U+10FFFF). -/
def utf8Valid : List Nat → Bool
  | [] => true
  | b :: rest =>
    if b ≤ 0x7F then
      utf8Valid rest
    else if 0xC2 ≤ b && b ≤ 0xDF then
      match rest with
      | b1 :: r => contByte b1 && utf8Valid r
      | _ => false
    else if b == 0xE0 then
      match rest with
      | b1 :: b2 :: r => (0xA0 ≤ b1 && b1 ≤ 0xBF) && contByte b2 && utf8Valid r
      | _ => false
    else if (0xE1 ≤ b && b ≤ 0xEC) || b == 0xEE || b == 0xEF then
      match rest with
      | b1 :: b2 :: r => contByte b1 && contByte b2 && utf8Valid r
      | _ => false
    else if b == 0xED then
      match rest with
      | b1 :: b2 :: r => (0x80 ≤ b1 && b1 ≤ 0x9F) && contByte b2 && utf8Valid r
      | _ => false
    else if b == 0xF0 then
      match rest with
      | b1 :: b2 :: b3 :: r =>
        (0x90 ≤ b1 && b1 ≤ 0xBF) && contByte b2 && contByte b3 && utf8Valid r
      | _ => false
    else if 0xF1 ≤ b && b ≤ 0xF3 then
      match rest with
      | b1 :: b2 :: b3 :: r =>
        contByte b1 && contByte b2 && contByte b3 && utf8Valid r
      | _ => false
    else if b == 0xF4 then
      match rest with
      | b1 :: b2 :: b3 :: r =>
        (0x80 ≤ b1 && b1 ≤ 0x8F) && contByte b2 && contByte b3 && utf8Valid r
      | _ => false
    else
      false

/-- `read_string`: a 2-byte big-endian length, then that many bytes, which
must be valid UTF-8 (`String::from_utf8` failure maps to `none`). -/
def read_string (s : List Nat) : Option (List Nat × List Nat) :=
  match read_exact 2 s with
  | none => none
  | some (lenB, s1) =>
    match read_exact (beVal lenB) s1 with
    | none => none
    | some (buffer, s2) =>
      if utf8Valid buffer then some (buffer, s2) else none

/-- `write_string`: emits the 2-byte big-endian length then the bytes; the
`TryInto::<u16>` conversion fails before anything is written when the byte
length does not fit in 16 bits. -/
def write_string (s : List Nat) : List Nat × Bool :=
  if s.length < 65536 then (beBytes 2 s.length ++ s, true) else ([], false)

/-- Immersive-specific sample data (`struct ImmersiveSampleData`). Strings
are their UTF-8 byte sequences. -/
structure ImmersiveSampleData where
  mineral : List Nat
  liquid : List Nat
  timestamp : Nat
deriving DecidableEq

/-- `ImmersiveSampleData::read_from`: mineral string, liquid string, then an
8-byte big-endian timestamp. -/
def ImmersiveSampleData.read_from (s : List Nat) :
    Option (ImmersiveSampleData × List Nat) :=
  match read_string s with
  | none => none
  | some (mineral, s1) =>
    match read_string s1 with
    | none => none
    | some (liquid, s2) =>
      match read_exact 8 s2 with
      | none => none
      | some (tsB, s3) => some (⟨mineral, liquid, beVal tsB⟩, s3)

/-- `ImmersiveSampleData::write_to`: mineral string, liquid string, then the
8-byte big-endian timestamp; stops at the first failing write. -/
def ImmersiveSampleData.write_to (d : ImmersiveSampleData) : List Nat × Bool :=
  let (b1, ok1) := write_string d.mineral
  if ok1 then
    let (b2, ok2) := write_string d.liquid
    if ok2 then (b1 ++ b2 ++ beBytes 8 d.timestamp, true) else (b1 ++ b2, false)
  else (b1, false)

/-- Per-mod data about a sample (`enum SampleData`). -/
inductive SampleData where
  | Immersive : ImmersiveSampleData → SampleData
  | TerraFirmaCraft : List Nat → SampleData
  | Geolosys : List Nat → SampleData
deriving DecidableEq

/-- The discriminant `Sample::write_to` stores for each variant. -/
def SampleData.disc : SampleData → Nat
  | .Immersive _ => 0
  | .TerraFirmaCraft _ => 1
  | .Geolosys _ => 2

/-- A single sample (`struct Sample`). -/
structure Sample where
  dimension : Int
  x : Int
  z : Int
  data : SampleData
deriving DecidableEq

/-- `Sample::read_from`: a 4-byte discriminant which must be 0, 1 or 2, then
dimension, x, z as 4-byte big-endian signed integers, then the
variant-specific payload. -/
def Sample.read_from (s : List Nat) : Option (Sample × List Nat) :=
  match read_exact 4 s with
  | none => none
  | some (smB, s1) =>
    if beVal smB = 0 ∨ beVal smB = 1 ∨ beVal smB = 2 then
      match read_exact 4 s1 with
      | none => none
      | some (dB, s2) =>
        match read_exact 4 s2 with
        | none => none
        | some (xB, s3) =>
          match read_exact 4 s3 with
          | none => none
          | some (zB, s4) =>
            if beVal smB = 0 then
              match ImmersiveSampleData.read_from s4 with
              | none => none
              | some (d, s5) =>
                some (⟨toSigned32 (beVal dB), toSigned32 (beVal xB),
                  toSigned32 (beVal zB), .Immersive d⟩, s5)
            else if beVal smB = 1 then
              match read_string s4 with
              | none => none
              | some (ore, s5) =>
                some (⟨toSigned32 (beVal dB), toSigned32 (beVal xB),
                  toSigned32 (beVal zB), .TerraFirmaCraft ore⟩, s5)
            else
              match read_string s4 with
              | none => none
              | some (ore, s5) =>
                some (⟨toSigned32 (beVal dB), toSigned32 (beVal xB),
                  toSigned32 (beVal zB), .Geolosys ore⟩, s5)
    else none

/-- The loop body of `Sample::read_list_from`: read `n` samples in
sequence. -/
def readSamples : Nat → List Nat → Option (List Sample × List Nat)
  | 0, s => some ([], s)
  | n + 1, s =>
    match Sample.read_from s with
    | none => none
    | some (v, s1) =>
      match readSamples n s1 with
      | none => none
      | some (vs, s2) => some (v :: vs, s2)

/-- `Sample::read_list_from`: a 4-byte big-endian record count, then that
many records. Remaining bytes are returned unconsumed. -/
def Sample.read_list_from (s : List Nat) : Option (List Sample × List Nat) :=
  match read_exact 4 s with
  | none => none
  | some (cB, s1) => readSamples (beVal cB) s1

/-- `Sample::write_to`: the variant's discriminant, dimension, x, z, each as
4 big-endian bytes, then the variant payload; the bytes emitted before a
failing string write stay emitted (they were already handed to the
writer). -/
def Sample.write_to (smp : Sample) : List Nat × Bool :=
  let header := beBytes 4 smp.data.disc ++ i32Bytes smp.dimension ++
    i32Bytes smp.x ++ i32Bytes smp.z
  match smp.data with
  | .Immersive d =>
    let (b, ok) := d.write_to
    (header ++ b, ok)
  | .TerraFirmaCraft ore =>
    let (b, ok) := write_string ore
    (header ++ b, ok)
  | .Geolosys ore =>
    let (b, ok) := write_string ore
    (header ++ b, ok)

/-- The loop body of `Sample::write_list_to`: write each sample in order,
stopping at the first failure. -/
def writeSamples : List Sample → List Nat × Bool
  | [] => ([], true)
  | smp :: rest =>
    let (b, ok) := smp.write_to
    if ok then
      let (bs, ok2) := writeSamples rest
      (b ++ bs, ok2)
    else (b, false)

/-- `Sample::write_list_to`: the list length as a 4-byte big-endian count
(the `TryInto::<u32>` conversion fails, before anything is written, when the
length does not fit), then each sample in order. -/
def Sample.write_list_to (samples : List Sample) : List Nat × Bool :=
  if samples.length < 4294967296 then
    let (bs, ok) := writeSamples samples
    (beBytes 4 samples.length ++ bs, ok)
  else ([], false)

/-- Modelled from the spec: the declarative byte layout of an `LString` from
section 6 of the spec (`LString := length:u16 bytes:u8[length]`). -/
def lString (s : List Nat) : List Nat :=
  beBytes 2 s.length ++ s

/-- Modelled from the spec: the declarative byte layout of one record from
section 6 of the spec (`Record := discriminant:u32 dimension:i32 x:i32 z:i32
Payload(discriminant)`; `Payload(0) := mineral:LString liquid:LString
timestamp:u64`; `Payload(1)` and `Payload(2)` are `ore:LString`). -/
def sampleLayout (smp : Sample) : List Nat :=
  beBytes 4 smp.data.disc ++ i32Bytes smp.dimension ++ i32Bytes smp.x ++
    i32Bytes smp.z ++
    (match smp.data with
     | .Immersive d => lString d.mineral ++ lString d.liquid ++
         beBytes 8 d.timestamp
     | .TerraFirmaCraft ore => lString ore
     | .Geolosys ore => lString ore)

/-- A string field that a Rust `String` of encodable byte length can hold:
valid UTF-8 whose byte length fits in the 16-bit length field. -/
def validString (s : List Nat) : Bool :=
  decide (s.length < 65536) && utf8Valid s

/-- An in-memory sample as the Rust types constrain it: coordinates in `i32`
range, the timestamp in `u64` range, strings valid and of encodable
length. -/
def Sample.valid (smp : Sample) : Bool :=
  decide (-2147483648 ≤ smp.dimension) && decide (smp.dimension < 2147483648) &&
  decide (-2147483648 ≤ smp.x) && decide (smp.x < 2147483648) &&
  decide (-2147483648 ≤ smp.z) && decide (smp.z < 2147483648) &&
  (match smp.data with
   | .Immersive d => validString d.mineral && validString d.liquid &&
       decide (d.timestamp < 18446744073709551616)
   | .TerraFirmaCraft ore => validString ore
   | .Geolosys ore => validString ore)

/-- The body of the `for i in &mut samples` loop of `do_edit`, for one
sample: returns the (possibly updated) sample and whether this iteration set
`found`. -/
def editSample (dimension x z : Int) (mineral liquid ore : Option (List Nat))
    (smp : Sample) : Sample × Bool :=
  if smp.dimension = dimension ∧ smp.x = x ∧ smp.z = z then
    match smp.data with
    | .Immersive d =>
      let (d1, f1) :=
        match mineral with
        | some m => ({ d with mineral := m }, true)
        | none => (d, false)
      let (d2, f2) :=
        match liquid with
        | some l => ({ d1 with liquid := l }, true)
        | none => (d1, false)
      ({ smp with data := .Immersive d2 }, f1 || f2)
    | .TerraFirmaCraft _ =>
      match ore with
      | some o => ({ smp with data := .TerraFirmaCraft o }, true)
      | none => (smp, false)
    | .Geolosys _ =>
      match ore with
      | some o => ({ smp with data := .Geolosys o }, true)
      | none => (smp, false)
  else (smp, false)

/-- The whole `for` loop of `do_edit`: the updated list, and the final value
of the `found` flag. -/
def editList (dimension x z : Int) (mineral liquid ore : Option (List Nat)) :
    List Sample → List Sample × Bool
  | [] => ([], false)
  | smp :: rest =>
    let (smp1, f) := editSample dimension x z mineral liquid ore smp
    let (rest1, f1) := editList dimension x z mineral liquid ore rest
    (smp1 :: rest1, f || f1)

/-- Whether `do_edit`'s loop would set `found` on this sample when the given
update fields are supplied: the key matches and the variant accepts one of
the supplied fields. -/
def eligibleSample (dimension x z : Int)
    (mineral liquid ore : Option (List Nat)) (smp : Sample) : Bool :=
  decide (smp.dimension = dimension ∧ smp.x = x ∧ smp.z = z) &&
  (match smp.data with
   | .Immersive _ => mineral.isSome || liquid.isSome
   | .TerraFirmaCraft _ => ore.isSome
   | .Geolosys _ => ore.isSome)

/-- How a `do_edit` invocation terminates. -/
inductive EditResult where
  | formatError
  | usageError
  | notFoundOre
  | notFoundImmersive
  | encodeError
  | ok
deriving DecidableEq

/-- Observable file-system events of a `do_edit` invocation, in order. -/
inductive Ev where
  | evOpenRead
  | evUsageExit
  | evNotFoundExit
  | evWrite
deriving DecidableEq

/-- The outcome of a `do_edit` invocation: how it terminated, the bytes the
target file holds afterwards, and the ordered file events. -/
structure EditExec where
  result : EditResult
  content : List Nat
  events : List Ev
deriving DecidableEq

/-- `write_file`: `File::create` truncates the target to empty at once, so
the old content is discarded before encoding starts; the bytes produced by
`Sample::write_list_to` (all of them on success — flushed and synced — and
the partial output on failure, flushed when the buffered writer is dropped)
are what the file then holds. -/
def write_file (_oldContent : List Nat) (samples : List Sample) :
    List Nat × Bool :=
  Sample.write_list_to samples

/-- `do_edit`, over the target file's bytes: read and decode the file first;
then parse dimension, x, z in that order (`convert` exits on the first
non-integer, modelled by a `none` argument); then run the edit loop; then
either write the file back (when `found`), or exit with the variant-specific
not-found message. -/
def do_edit (content : List Nat) (dimArg xArg zArg : Option Int)
    (mineral liquid ore : Option (List Nat)) : EditExec :=
  match Sample.read_list_from content with
  | none => ⟨.formatError, content, [.evOpenRead]⟩
  | some (samples, _) =>
    match dimArg with
    | none => ⟨.usageError, content, [.evOpenRead, .evUsageExit]⟩
    | some dimension =>
      match xArg with
      | none => ⟨.usageError, content, [.evOpenRead, .evUsageExit]⟩
      | some x =>
        match zArg with
        | none => ⟨.usageError, content, [.evOpenRead, .evUsageExit]⟩
        | some z =>
          let (edited, found) := editList dimension x z mineral liquid ore samples
          if found then
            let (bytes, ok) := write_file content edited
            if ok then ⟨.ok, bytes, [.evOpenRead, .evWrite]⟩
            else ⟨.encodeError, bytes, [.evOpenRead, .evWrite]⟩
          else if ore.isSome then
            ⟨.notFoundOre, content, [.evOpenRead, .evNotFoundExit]⟩
          else
            ⟨.notFoundImmersive, content, [.evOpenRead, .evNotFoundExit]⟩

/-! ### Big-endian arithmetic -/

theorem beVal_nil : beVal [] = 0 := rfl

theorem beVal_foldl (a : Nat) (bs : List Nat) :
    bs.foldl (fun a b => a * 256 + b) a = a * 256 ^ bs.length + beVal bs := by
  induction bs generalizing a with
  | nil => simp [beVal]
  | cons b rest ih =>
    have hc : beVal (b :: rest) = b * 256 ^ rest.length + beVal rest := by
      simp only [beVal, List.foldl_cons, Nat.zero_mul, Nat.zero_add]
      exact ih b
    simp only [List.foldl_cons, List.length_cons]
    rw [ih (a * 256 + b), hc]
    ring

theorem beVal_append (xs ys : List Nat) :
    beVal (xs ++ ys) = beVal xs * 256 ^ ys.length + beVal ys := by
  unfold beVal
  rw [List.foldl_append, beVal_foldl]
  rfl

theorem beBytes_length (w n : Nat) : (beBytes w n).length = w := by
  induction w generalizing n with
  | zero => rfl
  | succ w ih => simp [beBytes, ih]

theorem beVal_beBytes (w n : Nat) : beVal (beBytes w n) = n % 256 ^ w := by
  induction w generalizing n with
  | zero => simp [beBytes, beVal, Nat.mod_one]
  | succ w ih =>
    rw [beBytes, beVal_append, ih]
    simp only [List.length_cons, List.length_nil, pow_one, beVal]
    have h256 : (256 : Nat) ^ (w + 1) = 256 * 256 ^ w := by ring
    rw [h256, Nat.mod_mul]
    simp [List.foldl]
    ring

theorem beVal_beBytes_of_lt {w n : Nat} (h : n < 256 ^ w) :
    beVal (beBytes w n) = n := by
  rw [beVal_beBytes, Nat.mod_eq_of_lt h]

theorem toSigned32_i32Bytes {d : Int} (h1 : -2147483648 ≤ d)
    (h2 : d < 2147483648) : toSigned32 (beVal (i32Bytes d)) = d := by
  have hlt : (d % 4294967296).toNat < 4294967296 := by omega
  have hval : beVal (i32Bytes d) = (d % 4294967296).toNat := by
    unfold i32Bytes
    rw [beVal_beBytes]
    have : (256 : Nat) ^ 4 = 4294967296 := by norm_num
    rw [this, Nat.mod_eq_of_lt hlt]
  rw [hval]
  unfold toSigned32
  split <;> omega

/-! ### `read_exact` -/

theorem read_exact_eq_some {n : Nat} {s v r : List Nat} :
    read_exact n s = some (v, r) ↔
      n ≤ s.length ∧ v = s.take n ∧ r = s.drop n := by
  unfold read_exact
  split <;> simp_all [eq_comm]

theorem take_append_of_le {n : Nat} {a b : List Nat} (h : n ≤ a.length) :
    (a ++ b).take n = a.take n := by
  have ha : a = a.take n ++ a.drop n := (List.take_append_drop n a).symm
  calc (a ++ b).take n = ((a.take n ++ a.drop n) ++ b).take n := by rw [← ha]
    _ = (a.take n ++ (a.drop n ++ b)).take n := by rw [List.append_assoc]
    _ = a.take n := List.take_left' (by simp [Nat.min_eq_left h])

theorem drop_append_of_le {n : Nat} {a b : List Nat} (h : n ≤ a.length) :
    (a ++ b).drop n = a.drop n ++ b := by
  have ha : a = a.take n ++ a.drop n := (List.take_append_drop n a).symm
  calc (a ++ b).drop n = ((a.take n ++ a.drop n) ++ b).drop n := by rw [← ha]
    _ = (a.take n ++ (a.drop n ++ b)).drop n := by rw [List.append_assoc]
    _ = a.drop n ++ b := List.drop_left' (by simp [Nat.min_eq_left h])

theorem read_exact_append {n : Nat} {a rest : List Nat} (h : a.length = n) :
    read_exact n (a ++ rest) = some (a, rest) := by
  unfold read_exact
  rw [if_pos (by simp [h])]
  rw [take_append_of_le (by omega), drop_append_of_le (by omega)]
  simp [h]

theorem read_exact_extend {n : Nat} {s v r t : List Nat}
    (h : read_exact n s = some (v, r)) :
    read_exact n (s ++ t) = some (v, r ++ t) := by
  rw [read_exact_eq_some] at h
  obtain ⟨hn, hv, hr⟩ := h
  unfold read_exact
  rw [if_pos (by simp; omega)]
  rw [take_append_of_le hn, drop_append_of_le hn, hv, hr]

/-! ### String codec -/

theorem write_string_ok {s : List Nat} (h : s.length < 65536) :
    write_string s = (lString s, true) := by
  unfold write_string lString
  rw [if_pos h]

theorem write_string_fail {s : List Nat} (h : 65536 ≤ s.length) :
    write_string s = ([], false) := by
  unfold write_string
  rw [if_neg (by omega)]

theorem read_string_lString {s : List Nat} (hv : utf8Valid s = true)
    (hl : s.length < 65536) (rest : List Nat) :
    read_string (lString s ++ rest) = some (s, rest) := by
  unfold read_string
  have h1 : read_exact 2 (lString s ++ rest) =
      some (beBytes 2 s.length, s ++ rest) := by
    unfold lString
    rw [List.append_assoc]
    exact read_exact_append (beBytes_length 2 s.length)
  have h2 : beVal (beBytes 2 s.length) = s.length :=
    beVal_beBytes_of_lt (by norm_num [hl])
  have h3 : read_exact s.length (s ++ rest) = some (s, rest) :=
    read_exact_append rfl
  simp only [h1, h2, h3, hv, if_true]

theorem read_string_badUtf8 {s : List Nat} (hl : s.length < 65536)
    (hv : utf8Valid s = false) (rest : List Nat) :
    read_string (lString s ++ rest) = none := by
  unfold read_string
  have h1 : read_exact 2 (lString s ++ rest) =
      some (beBytes 2 s.length, s ++ rest) := by
    unfold lString
    rw [List.append_assoc]
    exact read_exact_append (beBytes_length 2 s.length)
  have h2 : beVal (beBytes 2 s.length) = s.length :=
    beVal_beBytes_of_lt (by norm_num [hl])
  have h3 : read_exact s.length (s ++ rest) = some (s, rest) :=
    read_exact_append rfl
  simp only [h1, h2, h3, hv]
  simp

theorem read_string_extend {s v r t : List Nat}
    (h : read_string s = some (v, r)) :
    read_string (s ++ t) = some (v, r ++ t) := by
  unfold read_string at h ⊢
  rcases h1 : read_exact 2 s with _ | ⟨lenB, s1⟩
  · simp [h1] at h
  rcases h2 : read_exact (beVal lenB) s1 with _ | ⟨buffer, s2⟩
  · simp [h1, h2] at h
  cases hv : utf8Valid buffer with
  | false => simp [h1, h2, hv] at h
  | true =>
    simp only [h1, h2, hv, if_true, Option.some.injEq, Prod.mk.injEq] at h
    obtain ⟨hb, hr⟩ := h
    simp only [read_exact_extend h1, read_exact_extend h2, hv, if_true,
      hb, hr]
    rw [if_pos (hb ▸ hv)]

/-! ### Validity extraction -/

theorem valid_coords {smp : Sample} (h : smp.valid = true) :
    -2147483648 ≤ smp.dimension ∧ smp.dimension < 2147483648 ∧
    -2147483648 ≤ smp.x ∧ smp.x < 2147483648 ∧
    -2147483648 ≤ smp.z ∧ smp.z < 2147483648 := by
  unfold Sample.valid at h
  simp only [Bool.and_eq_true, decide_eq_true_eq] at h
  tauto

theorem valid_immersive {smp : Sample} {d : ImmersiveSampleData}
    (hd : smp.data = .Immersive d) (h : smp.valid = true) :
    d.mineral.length < 65536 ∧ utf8Valid d.mineral = true ∧
    d.liquid.length < 65536 ∧ utf8Valid d.liquid = true ∧
    d.timestamp < 18446744073709551616 := by
  unfold Sample.valid at h
  rw [hd] at h
  simp only [validString, Bool.and_eq_true, decide_eq_true_eq] at h
  tauto

theorem valid_tfc {smp : Sample} {ore : List Nat}
    (hd : smp.data = .TerraFirmaCraft ore) (h : smp.valid = true) :
    ore.length < 65536 ∧ utf8Valid ore = true := by
  unfold Sample.valid at h
  rw [hd] at h
  simp only [validString, Bool.and_eq_true, decide_eq_true_eq] at h
  tauto

theorem valid_geolosys {smp : Sample} {ore : List Nat}
    (hd : smp.data = .Geolosys ore) (h : smp.valid = true) :
    ore.length < 65536 ∧ utf8Valid ore = true := by
  unfold Sample.valid at h
  rw [hd] at h
  simp only [validString, Bool.and_eq_true, decide_eq_true_eq] at h
  tauto

/-! ### Immersive payload -/

theorem immersive_write_ok {d : ImmersiveSampleData}
    (hm : d.mineral.length < 65536) (hl : d.liquid.length < 65536) :
    d.write_to =
      (lString d.mineral ++ lString d.liquid ++ beBytes 8 d.timestamp, true) := by
  unfold ImmersiveSampleData.write_to
  rw [write_string_ok hm, write_string_ok hl]
  simp

theorem immersive_read_layout {d : ImmersiveSampleData}
    (hm : d.mineral.length < 65536) (hmv : utf8Valid d.mineral = true)
    (hl : d.liquid.length < 65536) (hlv : utf8Valid d.liquid = true)
    (ht : d.timestamp < 18446744073709551616) (rest : List Nat) :
    ImmersiveSampleData.read_from
      (lString d.mineral ++ lString d.liquid ++ beBytes 8 d.timestamp ++ rest) =
      some (d, rest) := by
  unfold ImmersiveSampleData.read_from
  simp only [List.append_assoc]
  have h1 := read_string_lString hmv hm
    (lString d.liquid ++ (beBytes 8 d.timestamp ++ rest))
  have h2 := read_string_lString hlv hl (beBytes 8 d.timestamp ++ rest)
  have h3 : read_exact 8 (beBytes 8 d.timestamp ++ rest) =
      some (beBytes 8 d.timestamp, rest) :=
    read_exact_append (beBytes_length 8 d.timestamp)
  have h4 : beVal (beBytes 8 d.timestamp) = d.timestamp :=
    beVal_beBytes_of_lt (by norm_num [ht])
  simp only [h1, h2, h3, h4]

theorem immersive_read_extend {s t : List Nat} {d : ImmersiveSampleData}
    {r : List Nat} (h : ImmersiveSampleData.read_from s = some (d, r)) :
    ImmersiveSampleData.read_from (s ++ t) = some (d, r ++ t) := by
  unfold ImmersiveSampleData.read_from at h ⊢
  rcases h1 : read_string s with _ | ⟨mineral, s1⟩
  · simp [h1] at h
  rcases h2 : read_string s1 with _ | ⟨liquid, s2⟩
  · simp [h1, h2] at h
  rcases h3 : read_exact 8 s2 with _ | ⟨tsB, s3⟩
  · simp [h1, h2, h3] at h
  simp only [h1, h2, h3, Option.some.injEq, Prod.mk.injEq] at h
  obtain ⟨hd, hr⟩ := h
  simp only [read_string_extend h1, read_string_extend h2,
    read_exact_extend h3, hd, hr]

/-! ### Sample encode/decode -/

theorem read_exact_beBytes (w n : Nat) (rest : List Nat) :
    read_exact w (beBytes w n ++ rest) = some (beBytes w n, rest) :=
  read_exact_append (beBytes_length w n)

theorem i32Bytes_length (d : Int) : (i32Bytes d).length = 4 :=
  beBytes_length 4 _

theorem read_exact_i32 (d : Int) (rest : List Nat) :
    read_exact 4 (i32Bytes d ++ rest) = some (i32Bytes d, rest) :=
  read_exact_append (i32Bytes_length d)

theorem sample_write_eq_layout {smp : Sample} (h : smp.valid = true) :
    smp.write_to = (sampleLayout smp, true) := by
  unfold Sample.write_to sampleLayout
  cases hdata : smp.data with
  | Immersive d =>
    obtain ⟨hm, hmv, hl, hlv, ht⟩ := valid_immersive hdata h
    simp only [immersive_write_ok hm hl]
  | TerraFirmaCraft ore =>
    obtain ⟨ho, hov⟩ := valid_tfc hdata h
    simp only [write_string_ok ho]
  | Geolosys ore =>
    obtain ⟨ho, hov⟩ := valid_geolosys hdata h
    simp only [write_string_ok ho]

theorem sample_read_layout {smp : Sample} (h : smp.valid = true)
    (rest : List Nat) :
    Sample.read_from (sampleLayout smp ++ rest) = some (smp, rest) := by
  obtain ⟨hd1, hd2, hx1, hx2, hz1, hz2⟩ := valid_coords h
  unfold Sample.read_from sampleLayout
  cases hdata : smp.data with
  | Immersive d =>
    obtain ⟨hm, hmv, hl, hlv, ht⟩ := valid_immersive hdata h
    have hI := immersive_read_layout hm hmv hl hlv ht rest
    simp only [List.append_assoc] at hI
    simp only [SampleData.disc, List.append_assoc, read_exact_beBytes,
      read_exact_i32, show beVal (beBytes 4 0) = 0 from rfl,
      toSigned32_i32Bytes hd1 hd2, toSigned32_i32Bytes hx1 hx2,
      toSigned32_i32Bytes hz1 hz2, hI]
    rw [← hdata]
    simp
  | TerraFirmaCraft ore =>
    obtain ⟨ho, hov⟩ := valid_tfc hdata h
    have hS := read_string_lString hov ho rest
    simp only [SampleData.disc, List.append_assoc, read_exact_beBytes,
      read_exact_i32, show beVal (beBytes 4 1) = 1 from rfl,
      toSigned32_i32Bytes hd1 hd2, toSigned32_i32Bytes hx1 hx2,
      toSigned32_i32Bytes hz1 hz2, hS]
    rw [← hdata]
    simp
  | Geolosys ore =>
    obtain ⟨ho, hov⟩ := valid_geolosys hdata h
    have hS := read_string_lString hov ho rest
    simp only [SampleData.disc, List.append_assoc, read_exact_beBytes,
      read_exact_i32, show beVal (beBytes 4 2) = 2 from rfl,
      toSigned32_i32Bytes hd1 hd2, toSigned32_i32Bytes hx1 hx2,
      toSigned32_i32Bytes hz1 hz2, hS]
    rw [← hdata]
    simp

theorem sample_read_extend {s t : List Nat} {smp : Sample} {r : List Nat}
    (h : Sample.read_from s = some (smp, r)) :
    Sample.read_from (s ++ t) = some (smp, r ++ t) := by
  unfold Sample.read_from at h ⊢
  rcases h1 : read_exact 4 s with _ | ⟨smB, s1⟩
  · simp [h1] at h
  by_cases hc : beVal smB = 0 ∨ beVal smB = 1 ∨ beVal smB = 2
  case neg => simp [h1, hc] at h
  rcases h2 : read_exact 4 s1 with _ | ⟨dB, s2⟩
  · simp [h1, hc, h2] at h
  rcases h3 : read_exact 4 s2 with _ | ⟨xB, s3⟩
  · simp [h1, hc, h2, h3] at h
  rcases h4 : read_exact 4 s3 with _ | ⟨zB, s4⟩
  · simp [h1, hc, h2, h3, h4] at h
  rcases hc with h0 | hone | htwo
  · rcases h5 : ImmersiveSampleData.read_from s4 with _ | ⟨d, s5⟩
    · simp [h1, h2, h3, h4, h0, h5] at h
    simp [h1, h2, h3, h4, h0, h5] at h
    obtain ⟨hsmp, hr⟩ := h
    subst hr
    simp [read_exact_extend h1, read_exact_extend h2, read_exact_extend h3,
      read_exact_extend h4, h0, immersive_read_extend h5, hsmp]
  · rcases h5 : read_string s4 with _ | ⟨ore, s5⟩
    · simp [h1, h2, h3, h4, hone, h5] at h
    simp [h1, h2, h3, h4, hone, h5] at h
    obtain ⟨hsmp, hr⟩ := h
    subst hr
    simp [read_exact_extend h1, read_exact_extend h2, read_exact_extend h3,
      read_exact_extend h4, hone, read_string_extend h5, hsmp]
  · rcases h5 : read_string s4 with _ | ⟨ore, s5⟩
    · simp [h1, h2, h3, h4, htwo, h5] at h
    simp [h1, h2, h3, h4, htwo, h5] at h
    obtain ⟨hsmp, hr⟩ := h
    subst hr
    simp [read_exact_extend h1, read_exact_extend h2, read_exact_extend h3,
      read_exact_extend h4, htwo, read_string_extend h5, hsmp]

/-! ### Sample lists -/

theorem readSamples_extend {n : Nat} {s t : List Nat} {L : List Sample}
    {r : List Nat} (h : readSamples n s = some (L, r)) :
    readSamples n (s ++ t) = some (L, r ++ t) := by
  induction n generalizing s L with
  | zero =>
    unfold readSamples at h ⊢
    simp only [Option.some.injEq, Prod.mk.injEq] at h
    obtain ⟨hL, hr⟩ := h
    simp [hL, hr]
  | succ n ih =>
    unfold readSamples at h ⊢
    rcases h1 : Sample.read_from s with _ | ⟨v, s1⟩
    · simp [h1] at h
    rcases h2 : readSamples n s1 with _ | ⟨vs, s2⟩
    · simp [h1, h2] at h
    simp only [h1, h2, Option.some.injEq, Prod.mk.injEq] at h
    obtain ⟨hL, hr⟩ := h
    subst hL
    subst hr
    simp only [sample_read_extend h1, ih h2]

theorem readSamples_length {n : Nat} {s : List Nat} {L : List Sample}
    {r : List Nat} (h : readSamples n s = some (L, r)) : L.length = n := by
  induction n generalizing s L with
  | zero =>
    unfold readSamples at h
    simp only [Option.some.injEq, Prod.mk.injEq] at h
    simp [← h.1]
  | succ n ih =>
    unfold readSamples at h
    rcases h1 : Sample.read_from s with _ | ⟨v, s1⟩
    · simp [h1] at h
    rcases h2 : readSamples n s1 with _ | ⟨vs, s2⟩
    · simp [h1, h2] at h
    simp only [h1, h2, Option.some.injEq, Prod.mk.injEq] at h
    obtain ⟨hL, hr⟩ := h
    subst hr
    simp [← hL, ih h2]

theorem writeSamples_read {samples : List Sample}
    (h : ∀ smp ∈ samples, smp.valid = true) (rest : List Nat) :
    (writeSamples samples).2 = true ∧
    readSamples samples.length ((writeSamples samples).1 ++ rest) =
      some (samples, rest) := by
  induction samples with
  | nil => simp [writeSamples, readSamples]
  | cons smp t ih =>
    have hsmp : smp.valid = true := h smp (List.mem_cons_self smp t)
    have ht : ∀ s ∈ t, s.valid = true := fun s hs => h s (List.mem_cons_of_mem smp hs)
    obtain ⟨ih1, ih2⟩ := ih ht
    unfold writeSamples
    simp only [sample_write_eq_layout hsmp]
    rcases hw : writeSamples t with ⟨bs, ok⟩
    rw [hw] at ih1 ih2
    simp only at ih1
    subst ih1
    simp only [if_true, List.length_cons]
    unfold readSamples
    rw [List.append_assoc]
    simp only at ih2
    simp only [sample_read_layout hsmp (bs ++ rest), ih2]
    simp

theorem read_list_extend {s t : List Nat} {L : List Sample} {r : List Nat}
    (h : Sample.read_list_from s = some (L, r)) :
    Sample.read_list_from (s ++ t) = some (L, r ++ t) := by
  unfold Sample.read_list_from at h ⊢
  rcases h1 : read_exact 4 s with _ | ⟨cB, s1⟩
  · simp [h1] at h
  simp only [h1] at h
  simp only [read_exact_extend h1]
  exact readSamples_extend h

theorem write_read_list {samples : List Sample}
    (hlen : samples.length < 4294967296)
    (h : ∀ smp ∈ samples, smp.valid = true) :
    (Sample.write_list_to samples).2 = true ∧
    Sample.read_list_from (Sample.write_list_to samples).1 =
      some (samples, []) := by
  obtain ⟨h1, h2⟩ := writeSamples_read h []
  unfold Sample.write_list_to Sample.read_list_from
  rw [if_pos hlen]
  rcases hw : writeSamples samples with ⟨bs, ok⟩
  rw [hw] at h1 h2
  simp only at h1 h2
  subst h1
  have hcount : beVal (beBytes 4 samples.length) = samples.length :=
    beVal_beBytes_of_lt (by norm_num [hlen])
  rw [List.append_nil] at h2
  simp only [read_exact_beBytes 4 samples.length bs, hcount, h2]
  simp

/-! ### Editor -/

theorem editList_fst (dimension x z : Int) (m l ore : Option (List Nat))
    (samples : List Sample) :
    (editList dimension x z m l ore samples).1 =
      samples.map (fun smp => (editSample dimension x z m l ore smp).1) := by
  induction samples with
  | nil => rfl
  | cons smp t ih =>
    unfold editList
    rcases he : editSample dimension x z m l ore smp with ⟨smp1, f⟩
    rcases ht : editList dimension x z m l ore t with ⟨t1, f1⟩
    rw [ht] at ih
    simp only at ih
    simp [he, ih]

theorem editList_snd (dimension x z : Int) (m l ore : Option (List Nat))
    (samples : List Sample) :
    (editList dimension x z m l ore samples).2 =
      samples.any (fun smp => (editSample dimension x z m l ore smp).2) := by
  induction samples with
  | nil => rfl
  | cons smp t ih =>
    unfold editList
    rcases he : editSample dimension x z m l ore smp with ⟨smp1, f⟩
    rcases ht : editList dimension x z m l ore t with ⟨t1, f1⟩
    rw [ht] at ih
    simp only at ih
    simp [he, ih, List.any_cons]

theorem editSample_snd (dimension x z : Int) (m l ore : Option (List Nat))
    (smp : Sample) :
    (editSample dimension x z m l ore smp).2 =
      eligibleSample dimension x z m l ore smp := by
  unfold editSample eligibleSample
  by_cases hk : smp.dimension = dimension ∧ smp.x = x ∧ smp.z = z
  · rw [if_pos hk]
    cases smp.data with
    | Immersive d => cases m <;> cases l <;> simp [hk]
    | TerraFirmaCraft o => cases ore <;> simp [hk]
    | Geolosys o => cases ore <;> simp [hk]
  · rw [if_neg hk]
    simp [hk]

theorem editSample_nokey {dimension x z : Int} {m l ore : Option (List Nat)}
    {smp : Sample} (hk : ¬(smp.dimension = dimension ∧ smp.x = x ∧ smp.z = z)) :
    editSample dimension x z m l ore smp = (smp, false) := by
  unfold editSample
  rw [if_neg hk]

theorem editSample_immersive {dimension x z : Int}
    {m l ore : Option (List Nat)} {smp : Sample} {d : ImmersiveSampleData}
    (hk : smp.dimension = dimension ∧ smp.x = x ∧ smp.z = z)
    (hd : smp.data = .Immersive d) :
    (editSample dimension x z m l ore smp).1 =
      { smp with data := .Immersive ⟨m.getD d.mineral, l.getD d.liquid,
        d.timestamp⟩ } := by
  unfold editSample
  rw [if_pos hk, hd]
  cases m <;> cases l <;> simp [Option.getD]

theorem editSample_tfc {dimension x z : Int} {m l : Option (List Nat)}
    {smp : Sample} {o onew : List Nat}
    (hk : smp.dimension = dimension ∧ smp.x = x ∧ smp.z = z)
    (hd : smp.data = .TerraFirmaCraft o) :
    (editSample dimension x z m l (some onew) smp).1 =
      { smp with data := .TerraFirmaCraft onew } := by
  unfold editSample
  rw [if_pos hk, hd]

theorem editSample_geolosys {dimension x z : Int} {m l : Option (List Nat)}
    {smp : Sample} {o onew : List Nat}
    (hk : smp.dimension = dimension ∧ smp.x = x ∧ smp.z = z)
    (hd : smp.data = .Geolosys o) :
    (editSample dimension x z m l (some onew) smp).1 =
      { smp with data := .Geolosys onew } := by
  unfold editSample
  rw [if_pos hk, hd]

theorem editSample_immersive_skip {dimension x z : Int}
    {ore : Option (List Nat)} {smp : Sample} {d : ImmersiveSampleData}
    (hd : smp.data = .Immersive d) :
    editSample dimension x z none none ore smp = (smp, false) := by
  obtain ⟨dim0, x0, z0, data0⟩ := smp
  dsimp only at hd
  subst hd
  unfold editSample
  by_cases hk : dim0 = dimension ∧ x0 = x ∧ z0 = z
  · rw [if_pos hk]
    simp
  · rw [if_neg hk]

theorem editSample_ore_skip {dimension x z : Int} {m l : Option (List Nat)}
    {smp : Sample} {o : List Nat}
    (hd : smp.data = .TerraFirmaCraft o ∨ smp.data = .Geolosys o) :
    editSample dimension x z m l none smp = (smp, false) := by
  unfold editSample
  by_cases hk : smp.dimension = dimension ∧ smp.x = x ∧ smp.z = z
  · rw [if_pos hk]
    rcases hd with hd | hd <;> rw [hd]
  · rw [if_neg hk]

/-! ### Claim theorems -/

/-- C1: for every sample list whose length fits in a `u32` and whose string
fields are valid UTF-8 of byte length at most 65535 (with coordinates and
timestamps in their Rust integer ranges), `write_list_to` succeeds and
`read_list_from` on the produced bytes succeeds and returns the original
list, field for field and in order, consuming the whole stream. -/
theorem roundtrip_c1 (samples : List Sample)
    (hlen : samples.length < 4294967296)
    (hvalid : ∀ smp ∈ samples, smp.valid = true) :
    (Sample.write_list_to samples).2 = true ∧
    Sample.read_list_from (Sample.write_list_to samples).1 =
      some (samples, []) :=
  write_read_list hlen hvalid

/-- A concrete list exercising all three variants, for the C1 witness. -/
def witnessList : List Sample :=
  [⟨1, 10, -5, .Immersive ⟨[81, 117], [87], 42⟩⟩,
   ⟨0, 3, 4, .TerraFirmaCraft [67, 117]⟩,
   ⟨2, -1, 7, .Geolosys [72]⟩]

/-- C1 witness: the round trip at a concrete three-sample list. -/
theorem roundtrip_c1_witness :
    (Sample.write_list_to witnessList).2 = true ∧
    Sample.read_list_from (Sample.write_list_to witnessList).1 =
      some (witnessList, []) :=
  roundtrip_c1 witnessList (by decide) (by decide)

/-- C2: decoding is total over all byte streams and yields an error, not a
value, on malformed input: (1) a successful decode consumes exactly the
declared record count, and every truncation strictly inside the consumed
bytes fails to decode; (2) a discriminant of 3 or more makes `read_from`
fail; (3) string bytes that are not valid UTF-8 make `read_string` fail. -/
theorem decode_total_c2 :
    (∀ (s : List Nat) (L : List Sample) (rest : List Nat),
      Sample.read_list_from s = some (L, rest) →
      L.length = beVal (s.take 4) ∧
      ∀ j, j < s.length - rest.length →
        Sample.read_list_from (s.take j) = none) ∧
    (∀ s : List Nat, 4 ≤ s.length → 3 ≤ beVal (s.take 4) →
      Sample.read_from s = none) ∧
    (∀ bytes rest : List Nat, bytes.length < 65536 →
      utf8Valid bytes = false → read_string (lString bytes ++ rest) = none) := by
  refine ⟨fun s L rest h => ⟨?_, fun j hj => ?_⟩, fun s h4 h3 => ?_,
    fun bytes rest hl hv => read_string_badUtf8 hl hv rest⟩
  · unfold Sample.read_list_from at h
    rcases h1 : read_exact 4 s with _ | ⟨cB, s1⟩
    · simp [h1] at h
    simp only [h1] at h
    rw [read_exact_eq_some] at h1
    rw [← h1.2.1]
    exact readSamples_length h
  · rcases hcontra : Sample.read_list_from (s.take j) with _ | ⟨L1, r1⟩
    · rfl
    exfalso
    have hext := read_list_extend (t := s.drop j) hcontra
    rw [List.take_append_drop] at hext
    rw [h] at hext
    simp only [Option.some.injEq, Prod.mk.injEq] at hext
    have hlen : rest.length = r1.length + (s.length - j) := by
      rw [hext.2]
      simp
    omega
  · unfold Sample.read_from
    have h1 : read_exact 4 s = some (s.take 4, s.drop 4) := by
      unfold read_exact
      rw [if_pos h4]
    simp only [h1]
    rw [if_neg (by omega)]

/-- C2 witness: the truncation clause at the empty truncation of an empty
list's encoding, the discriminant clause at discriminant 3, and the UTF-8
clause at a lone continuation byte. -/
theorem decode_total_c2_witness :
    Sample.read_list_from (([0, 0, 0, 0] : List Nat).take 0) = none ∧
    Sample.read_from [0, 0, 0, 3, 0, 0, 0, 0, 0, 0, 0, 0, 0, 0, 0, 0] = none ∧
    read_string (lString [128] ++ []) = none :=
  ⟨(decode_total_c2.1 [0, 0, 0, 0] [] [] (by decide)).2 0 (by decide),
   decode_total_c2.2.1 [0, 0, 0, 3, 0, 0, 0, 0, 0, 0, 0, 0, 0, 0, 0, 0]
     (by decide) (by decide),
   decode_total_c2.2.2 [128] [] (by decide) (by decide)⟩

/-- C3: for every valid sample, `write_to` emits exactly the declarative
layout of spec section 6 — 4-byte big-endian discriminant (0 Immersive,
1 TerraFirmaCraft, 2 Geolosys), then dimension, x, z as 4-byte big-endian
signed integers, then the variant payload (mineral LString, liquid LString
and 8-byte big-endian timestamp for Immersive; one ore LString otherwise) —
and `read_from` consumes exactly those bytes in that order, returning the
sample and the untouched remainder. -/
theorem layout_c3 (smp : Sample) (rest : List Nat) (h : smp.valid = true) :
    smp.write_to = (sampleLayout smp, true) ∧
    Sample.read_from (sampleLayout smp ++ rest) = some (smp, rest) :=
  ⟨sample_write_eq_layout h, sample_read_layout h rest⟩

/-- C3 witness: the layout equation at a concrete Immersive sample. -/
theorem layout_c3_witness :
    (⟨1, 2, -3, .Immersive ⟨[77], [76], 5⟩⟩ : Sample).write_to =
      (sampleLayout ⟨1, 2, -3, .Immersive ⟨[77], [76], 5⟩⟩, true) ∧
    Sample.read_from
        (sampleLayout ⟨1, 2, -3, .Immersive ⟨[77], [76], 5⟩⟩ ++ [9]) =
      some (⟨1, 2, -3, .Immersive ⟨[77], [76], 5⟩⟩, [9]) :=
  layout_c3 ⟨1, 2, -3, .Immersive ⟨[77], [76], 5⟩⟩ [9] (by decide)

/-- C4: `write_string` encodes every string of byte length at most 65535 as
the 2-byte big-endian length followed by exactly the string's bytes, fails
while emitting nothing for every string of byte length 65536 or more, and
`read_string` decodes exactly this encoding. -/
theorem string_codec_c4 :
    (∀ s : List Nat, s.length ≤ 65535 →
      write_string s = (beBytes 2 s.length ++ s, true)) ∧
    (∀ s : List Nat, 65536 ≤ s.length → write_string s = ([], false)) ∧
    (∀ s rest : List Nat, utf8Valid s = true → s.length ≤ 65535 →
      read_string ((write_string s).1 ++ rest) = some (s, rest)) := by
  refine ⟨fun s hs => write_string_ok (by omega),
    fun s hs => write_string_fail hs, fun s rest hv hs => ?_⟩
  rw [write_string_ok (by omega)]
  exact read_string_lString hv (by omega) rest

/-- C4 witness: a string of exactly 65535 bytes encodes, one of exactly
65536 bytes fails to encode, and a small string round-trips through
`write_string` then `read_string`. -/
theorem string_codec_c4_witness :
    write_string (List.replicate 65535 97) =
      (beBytes 2 (List.replicate 65535 97).length ++
        List.replicate 65535 97, true) ∧
    write_string (List.replicate 65536 97) = ([], false) ∧
    read_string ((write_string [104, 105]).1 ++ []) = some ([104, 105], []) :=
  ⟨string_codec_c4.1 (List.replicate 65535 97)
     (by rw [List.length_replicate]),
   string_codec_c4.2.1 (List.replicate 65536 97)
     (by rw [List.length_replicate]),
   string_codec_c4.2.2 [104, 105] [] (by decide) (by decide)⟩

/-- C8: decoding ignores trailing bytes — whenever `read_list_from` decodes
a stream to a list, appending any further bytes decodes to the same list,
with the appended bytes simply left in the remainder. -/
theorem trailing_c8 (s extra : List Nat) (L : List Sample) (rest : List Nat)
    (h : Sample.read_list_from s = some (L, rest)) :
    Sample.read_list_from (s ++ extra) = some (L, rest ++ extra) :=
  read_list_extend h

/-- C8 witness: appending junk after an empty list's encoding decodes to
the same empty list. -/
theorem trailing_c8_witness :
    Sample.read_list_from (([0, 0, 0, 0] : List Nat) ++ [7, 7]) =
      some (([] : List Sample), ([] : List Nat) ++ [7, 7]) :=
  trailing_c8 [0, 0, 0, 0] [7, 7] [] [] (by decide)

/-- C5: the edit loop visits every record; every record whose
`(dimension, x, z)` key equals the supplied key and whose variant accepts
the supplied fields is updated — all key-matching Immersive records get the
supplied mineral and/or liquid (keeping the other fields), and all
key-matching TerraFirmaCraft/Geolosys records get the supplied ore — so two
or more matching records are all updated. -/
theorem edit_all_matches_c5 (dimension x z : Int) (samples : List Sample) :
    (∀ m l ore,
      (editList dimension x z m l ore samples).1.length = samples.length) ∧
    (∀ (m l ore : Option (List Nat)) (i : Nat) (smp : Sample)
      (d : ImmersiveSampleData), samples[i]? = some smp →
      smp.dimension = dimension → smp.x = x → smp.z = z →
      smp.data = .Immersive d →
      (editList dimension x z m l ore samples).1[i]? =
        some { smp with data := .Immersive ⟨m.getD d.mineral,
          l.getD d.liquid, d.timestamp⟩ }) ∧
    (∀ (m l : Option (List Nat)) (onew : List Nat) (i : Nat) (smp : Sample)
      (o : List Nat), samples[i]? = some smp →
      smp.dimension = dimension → smp.x = x → smp.z = z →
      smp.data = .TerraFirmaCraft o →
      (editList dimension x z m l (some onew) samples).1[i]? =
        some { smp with data := .TerraFirmaCraft onew }) ∧
    (∀ (m l : Option (List Nat)) (onew : List Nat) (i : Nat) (smp : Sample)
      (o : List Nat), samples[i]? = some smp →
      smp.dimension = dimension → smp.x = x → smp.z = z →
      smp.data = .Geolosys o →
      (editList dimension x z m l (some onew) samples).1[i]? =
        some { smp with data := .Geolosys onew }) := by
  refine ⟨fun m l ore => ?_,
    fun m l ore i smp d hi h1 h2 h3 hd => ?_,
    fun m l onew i smp o hi h1 h2 h3 hd => ?_,
    fun m l onew i smp o hi h1 h2 h3 hd => ?_⟩
  · rw [editList_fst]
    simp
  · rw [editList_fst]
    simp only [List.getElem?_map, hi, Option.map_some']
    rw [editSample_immersive ⟨h1, h2, h3⟩ hd]
  · rw [editList_fst]
    simp only [List.getElem?_map, hi, Option.map_some']
    rw [editSample_tfc ⟨h1, h2, h3⟩ hd]
  · rw [editList_fst]
    simp only [List.getElem?_map, hi, Option.map_some']
    rw [editSample_geolosys ⟨h1, h2, h3⟩ hd]

/-- C5 witness: two Immersive records share the key `(1, 2, 3)`; an edit
supplying a mineral updates both. -/
theorem edit_all_matches_c5_witness :
    (editList 1 2 3 (some [88]) none none
      [⟨1, 2, 3, .Immersive ⟨[97], [98], 4⟩⟩,
       ⟨1, 2, 3, .Immersive ⟨[99], [100], 5⟩⟩]).1[0]? =
      some ⟨1, 2, 3, .Immersive ⟨[88], [98], 4⟩⟩ ∧
    (editList 1 2 3 (some [88]) none none
      [⟨1, 2, 3, .Immersive ⟨[97], [98], 4⟩⟩,
       ⟨1, 2, 3, .Immersive ⟨[99], [100], 5⟩⟩]).1[1]? =
      some ⟨1, 2, 3, .Immersive ⟨[88], [100], 5⟩⟩ :=
  ⟨(edit_all_matches_c5 1 2 3
      [⟨1, 2, 3, .Immersive ⟨[97], [98], 4⟩⟩,
       ⟨1, 2, 3, .Immersive ⟨[99], [100], 5⟩⟩]).2.1
    (some [88]) none none 0 _ _ rfl rfl rfl rfl rfl,
   (edit_all_matches_c5 1 2 3
      [⟨1, 2, 3, .Immersive ⟨[97], [98], 4⟩⟩,
       ⟨1, 2, 3, .Immersive ⟨[99], [100], 5⟩⟩]).2.1
    (some [88]) none none 1 _ _ rfl rfl rfl rfl rfl⟩

/-- C6: edit matching ignores the variant when comparing keys but filters
by variant when updating: with only ore supplied, a key-matching Immersive
record is left completely unmodified and does not count as found; with
mineral and/or liquid supplied and no ore, a key-matching
TerraFirmaCraft/Geolosys record is left completely unmodified and does not
count as found; and the `found` flag is set exactly when some record's key
matches and its variant accepts a supplied field. -/
theorem edit_variant_filter_c6 (dimension x z : Int) (samples : List Sample) :
    (∀ (ore : Option (List Nat)) (i : Nat) (smp : Sample)
      (d : ImmersiveSampleData), samples[i]? = some smp →
      smp.dimension = dimension → smp.x = x → smp.z = z →
      smp.data = .Immersive d →
      (editList dimension x z none none ore samples).1[i]? = some smp ∧
      (editSample dimension x z none none ore smp).2 = false) ∧
    (∀ (m l : Option (List Nat)) (i : Nat) (smp : Sample) (o : List Nat),
      samples[i]? = some smp →
      smp.dimension = dimension → smp.x = x → smp.z = z →
      (smp.data = .TerraFirmaCraft o ∨ smp.data = .Geolosys o) →
      (editList dimension x z m l none samples).1[i]? = some smp ∧
      (editSample dimension x z m l none smp).2 = false) ∧
    (∀ m l ore, (editList dimension x z m l ore samples).2 = true ↔
      ∃ smp ∈ samples, eligibleSample dimension x z m l ore smp = true) := by
  refine ⟨fun ore i smp d hi h1 h2 h3 hd => ?_,
    fun m l i smp o hi h1 h2 h3 hd => ?_, fun m l ore => ?_⟩
  · constructor
    · rw [editList_fst]
      simp only [List.getElem?_map, hi, Option.map_some']
      rw [editSample_immersive_skip hd]
    · rw [editSample_immersive_skip hd]
  · constructor
    · rw [editList_fst]
      simp only [List.getElem?_map, hi, Option.map_some']
      rw [editSample_ore_skip hd]
    · rw [editSample_ore_skip hd]
  · rw [editList_snd]
    simp only [List.any_eq_true, editSample_snd]

/-- C6 witness: an Immersive and a Geolosys record share the key
`(1, 10, -5)`; an ore-only edit leaves the Immersive record unmodified and
not found, a mineral-only edit leaves the Geolosys record unmodified and
not found, and both edits set the overall found flag. -/
theorem edit_variant_filter_c6_witness :
    ((editList 1 10 (-5) none none (some [72])
      [⟨1, 10, -5, .Immersive ⟨[81], [87], 9⟩⟩,
       ⟨1, 10, -5, .Geolosys [71]⟩]).1[0]? =
      some ⟨1, 10, -5, .Immersive ⟨[81], [87], 9⟩⟩ ∧
    (editSample 1 10 (-5) none none (some [72])
      ⟨1, 10, -5, .Immersive ⟨[81], [87], 9⟩⟩).2 = false) ∧
    ((editList 1 10 (-5) (some [81]) none none
      [⟨1, 10, -5, .Immersive ⟨[81], [87], 9⟩⟩,
       ⟨1, 10, -5, .Geolosys [71]⟩]).1[1]? =
      some ⟨1, 10, -5, .Geolosys [71]⟩ ∧
    (editSample 1 10 (-5) (some [81]) none none
      ⟨1, 10, -5, .Geolosys [71]⟩).2 = false) ∧
    ((editList 1 10 (-5) none none (some [72])
      [⟨1, 10, -5, .Immersive ⟨[81], [87], 9⟩⟩,
       ⟨1, 10, -5, .Geolosys [71]⟩]).2 = true ↔
      ∃ smp ∈ [⟨1, 10, -5, .Immersive ⟨[81], [87], 9⟩⟩,
        (⟨1, 10, -5, .Geolosys [71]⟩ : Sample)],
        eligibleSample 1 10 (-5) none none (some [72]) smp = true) :=
  ⟨(edit_variant_filter_c6 1 10 (-5)
      [⟨1, 10, -5, .Immersive ⟨[81], [87], 9⟩⟩,
       ⟨1, 10, -5, .Geolosys [71]⟩]).1
    (some [72]) 0 _ _ rfl rfl rfl rfl rfl,
   (edit_variant_filter_c6 1 10 (-5)
      [⟨1, 10, -5, .Immersive ⟨[81], [87], 9⟩⟩,
       ⟨1, 10, -5, .Geolosys [71]⟩]).2.1
    (some [81]) none 1 _ _ rfl rfl rfl rfl (Or.inr rfl),
   (edit_variant_filter_c6 1 10 (-5)
      [⟨1, 10, -5, .Immersive ⟨[81], [87], 9⟩⟩,
       ⟨1, 10, -5, .Geolosys [71]⟩]).2.2 none none (some [72])⟩

/-- C7: when the edit loop modifies no record, `do_edit` fails with the
TerraFirmaCraft/Geolosys not-found error exactly when ore was supplied and
the Immersive one otherwise, and the file's bytes are left identical; the
file is written if and only if the loop set `found`, which happens exactly
when some record's key matches and its variant accepts a supplied field. -/
theorem edit_notfound_c7 (content : List Nat) (samples : List Sample)
    (rest : List Nat) (dimension x z : Int) (m l ore : Option (List Nat))
    (hread : Sample.read_list_from content = some (samples, rest)) :
    ((editList dimension x z m l ore samples).2 = false →
      (do_edit content (some dimension) (some x) (some z) m l ore).result =
        (if ore.isSome then EditResult.notFoundOre
         else EditResult.notFoundImmersive) ∧
      (do_edit content (some dimension) (some x) (some z) m l ore).content =
        content ∧
      Ev.evWrite ∉
        (do_edit content (some dimension) (some x) (some z) m l ore).events) ∧
    (Ev.evWrite ∈
        (do_edit content (some dimension) (some x) (some z) m l ore).events ↔
      (editList dimension x z m l ore samples).2 = true) ∧
    ((editList dimension x z m l ore samples).2 = true ↔
      ∃ smp ∈ samples,
        eligibleSample dimension x z m l ore smp = true) := by
  have hiff : (editList dimension x z m l ore samples).2 = true ↔
      ∃ smp ∈ samples, eligibleSample dimension x z m l ore smp = true := by
    rw [editList_snd]
    simp only [List.any_eq_true, editSample_snd]
  rcases he : editList dimension x z m l ore samples with ⟨edited, found⟩
  rw [he] at hiff
  simp only at hiff
  simp only [do_edit, hread, he]
  cases found with
  | false =>
    refine ⟨fun _ => ?_, ?_, hiff⟩
    · cases ore <;> simp
    · cases ore <;> simp
  | true =>
    refine ⟨fun hfalse => by simp at hfalse, ?_, hiff⟩
    rcases hw : Sample.write_list_to edited with ⟨bytes, ok⟩
    simp only [write_file, hw]
    cases ok <;> simp

/-- C7 witness: a miss — an edit supplying a mineral on a one-record
TerraFirmaCraft file (no Immersive record at the key) reports the Immersive
not-found error, leaves the content untouched, and performs no write. -/
theorem edit_notfound_c7_witness :
    ((editList 2 0 0 (some [88]) none none
        [⟨0, 0, 0, .TerraFirmaCraft [97]⟩]).2 = false →
      (do_edit [0, 0, 0, 1, 0, 0, 0, 1, 0, 0, 0, 0, 0, 0, 0, 0, 0, 0, 0, 0,
        0, 1, 97] (some 2) (some 0) (some 0) (some [88]) none none).result =
        (if (Option.none (α := List Nat)).isSome then EditResult.notFoundOre
         else EditResult.notFoundImmersive) ∧
      (do_edit [0, 0, 0, 1, 0, 0, 0, 1, 0, 0, 0, 0, 0, 0, 0, 0, 0, 0, 0, 0,
        0, 1, 97] (some 2) (some 0) (some 0) (some [88]) none none).content =
        [0, 0, 0, 1, 0, 0, 0, 1, 0, 0, 0, 0, 0, 0, 0, 0, 0, 0, 0, 0,
        0, 1, 97] ∧
      Ev.evWrite ∉
        (do_edit [0, 0, 0, 1, 0, 0, 0, 1, 0, 0, 0, 0, 0, 0, 0, 0, 0, 0, 0, 0,
          0, 1, 97] (some 2) (some 0) (some 0)
          (some [88]) none none).events) ∧
    (Ev.evWrite ∈
        (do_edit [0, 0, 0, 1, 0, 0, 0, 1, 0, 0, 0, 0, 0, 0, 0, 0, 0, 0, 0, 0,
          0, 1, 97] (some 2) (some 0) (some 0)
          (some [88]) none none).events ↔
      (editList 2 0 0 (some [88]) none none
        [⟨0, 0, 0, .TerraFirmaCraft [97]⟩]).2 = true) ∧
    ((editList 2 0 0 (some [88]) none none
        [⟨0, 0, 0, .TerraFirmaCraft [97]⟩]).2 = true ↔
      ∃ smp ∈ [(⟨0, 0, 0, .TerraFirmaCraft [97]⟩ : Sample)],
        eligibleSample 2 0 0 (some [88]) none none smp = true) :=
  edit_notfound_c7
    [0, 0, 0, 1, 0, 0, 0, 1, 0, 0, 0, 0, 0, 0, 0, 0, 0, 0, 0, 0, 0, 1, 97]
    [⟨0, 0, 0, .TerraFirmaCraft [97]⟩] [] 2 0 0 (some [88]) none none
    (by decide)

/-- C9 counterexample: the old file holds one valid TerraFirmaCraft record;
an edit that sets its ore to a 65536-byte string finds the record, then
fails while encoding — and the file ends up truncated to the 20 bytes
written before the failure, not the old 23-byte content, because
`File::create` already truncated it. -/
theorem write_back_c9_counterexample :
    (do_edit [0, 0, 0, 1, 0, 0, 0, 1, 0, 0, 0, 0, 0, 0, 0, 0, 0, 0, 0, 0,
        0, 1, 97] (some 0) (some 0) (some 0) none none
        (some (List.replicate 65536 97))).result = EditResult.encodeError ∧
    (do_edit [0, 0, 0, 1, 0, 0, 0, 1, 0, 0, 0, 0, 0, 0, 0, 0, 0, 0, 0, 0,
        0, 1, 97] (some 0) (some 0) (some 0) none none
        (some (List.replicate 65536 97))).content =
      [0, 0, 0, 1, 0, 0, 0, 1, 0, 0, 0, 0, 0, 0, 0, 0, 0, 0, 0, 0] ∧
    (do_edit [0, 0, 0, 1, 0, 0, 0, 1, 0, 0, 0, 0, 0, 0, 0, 0, 0, 0, 0, 0,
        0, 1, 97] (some 0) (some 0) (some 0) none none
        (some (List.replicate 65536 97))).content ≠
      [0, 0, 0, 1, 0, 0, 0, 1, 0, 0, 0, 0, 0, 0, 0, 0, 0, 0, 0, 0,
        0, 1, 97] := by
  have key : ∀ R : List Nat, write_string R = ([], false) →
      (do_edit [0, 0, 0, 1, 0, 0, 0, 1, 0, 0, 0, 0, 0, 0, 0, 0, 0, 0, 0, 0,
        0, 1, 97] (some 0) (some 0) (some 0) none none
        (some R)).result = EditResult.encodeError ∧
      (do_edit [0, 0, 0, 1, 0, 0, 0, 1, 0, 0, 0, 0, 0, 0, 0, 0, 0, 0, 0, 0,
        0, 1, 97] (some 0) (some 0) (some 0) none none
        (some R)).content =
        [0, 0, 0, 1, 0, 0, 0, 1, 0, 0, 0, 0, 0, 0, 0, 0, 0, 0, 0, 0] ∧
      (do_edit [0, 0, 0, 1, 0, 0, 0, 1, 0, 0, 0, 0, 0, 0, 0, 0, 0, 0, 0, 0,
        0, 1, 97] (some 0) (some 0) (some 0) none none
        (some R)).content ≠
        [0, 0, 0, 1, 0, 0, 0, 1, 0, 0, 0, 0, 0, 0, 0, 0, 0, 0, 0, 0,
        0, 1, 97] := by
    intro R hws
    have hread : Sample.read_list_from
        [0, 0, 0, 1, 0, 0, 0, 1, 0, 0, 0, 0, 0, 0, 0, 0, 0, 0, 0, 0,
          0, 1, 97] = some ([⟨0, 0, 0, .TerraFirmaCraft [97]⟩], []) := by
      decide
    have hedit : editList 0 0 0 none none (some R)
        [⟨0, 0, 0, .TerraFirmaCraft [97]⟩] =
        ([⟨0, 0, 0, .TerraFirmaCraft R⟩], true) := by
      simp [editList, editSample]
    have hwrite : Sample.write_list_to [⟨0, 0, 0, .TerraFirmaCraft R⟩] =
        ([0, 0, 0, 1, 0, 0, 0, 1, 0, 0, 0, 0, 0, 0, 0, 0, 0, 0, 0, 0],
          false) := by
      unfold Sample.write_list_to writeSamples Sample.write_to
      simp only [hws, SampleData.disc]
      norm_num [i32Bytes, beBytes, beVal]
    simp only [do_edit, hread, hedit, write_file, hwrite]
    refine ⟨rfl, rfl, ?_⟩
    rw [if_pos trivial, if_neg Bool.false_ne_true]
    decide
  exact key (List.replicate 65536 97)
    (write_string_fail (by rw [List.length_replicate]))

/-- C9 amended: after a successful `write_file` the full new content is
observable (flushed and synced); but on a failure during encoding the old
content is not preserved — the target was truncated when opened, so the
file holds exactly the bytes the encoder produced before failing. -/
theorem write_back_c9_amended (content : List Nat) (samples : List Sample)
    (rest : List Nat) (dimension x z : Int) (m l ore : Option (List Nat))
    (hread : Sample.read_list_from content = some (samples, rest))
    (hfound : (editList dimension x z m l ore samples).2 = true) :
    (do_edit content (some dimension) (some x) (some z) m l ore).content =
      (Sample.write_list_to (editList dimension x z m l ore samples).1).1 ∧
    ((Sample.write_list_to (editList dimension x z m l ore samples).1).2 =
        true →
      (do_edit content (some dimension) (some x) (some z) m l ore).result =
        EditResult.ok) ∧
    ((Sample.write_list_to (editList dimension x z m l ore samples).1).2 =
        false →
      (do_edit content (some dimension) (some x) (some z) m l ore).result =
        EditResult.encodeError) := by
  rcases he : editList dimension x z m l ore samples with ⟨edited, found⟩
  rw [he] at hfound
  simp only at hfound
  subst hfound
  rcases hw : Sample.write_list_to edited with ⟨bytes, ok⟩
  simp only [do_edit, hread, he, write_file, hw]
  cases ok <;> simp

/-- C9 amended witness: a successful edit of the one-record file replaces
the content with the full new encoding and reports success. -/
theorem write_back_c9_amended_witness :
    (do_edit [0, 0, 0, 1, 0, 0, 0, 1, 0, 0, 0, 0, 0, 0, 0, 0, 0, 0, 0, 0,
        0, 1, 97] (some 0) (some 0) (some 0) none none
        (some [98])).content =
      (Sample.write_list_to (editList 0 0 0 none none (some [98])
        [⟨0, 0, 0, .TerraFirmaCraft [97]⟩]).1).1 ∧
    ((Sample.write_list_to (editList 0 0 0 none none (some [98])
        [⟨0, 0, 0, .TerraFirmaCraft [97]⟩]).1).2 = true →
      (do_edit [0, 0, 0, 1, 0, 0, 0, 1, 0, 0, 0, 0, 0, 0, 0, 0, 0, 0, 0, 0,
        0, 1, 97] (some 0) (some 0) (some 0) none none
        (some [98])).result = EditResult.ok) ∧
    ((Sample.write_list_to (editList 0 0 0 none none (some [98])
        [⟨0, 0, 0, .TerraFirmaCraft [97]⟩]).1).2 = false →
      (do_edit [0, 0, 0, 1, 0, 0, 0, 1, 0, 0, 0, 0, 0, 0, 0, 0, 0, 0, 0, 0,
        0, 1, 97] (some 0) (some 0) (some 0) none none
        (some [98])).result = EditResult.encodeError) :=
  write_back_c9_amended
    [0, 0, 0, 1, 0, 0, 0, 1, 0, 0, 0, 0, 0, 0, 0, 0, 0, 0, 0, 0, 0, 1, 97]
    [⟨0, 0, 0, .TerraFirmaCraft [97]⟩] [] 0 0 0 none none (some [98])
    (by decide) (by decide)

/-- C10 counterexample: with a non-integer dimension argument, `do_edit`
reads the target file first and only then raises the usage error — the
trace opens with the file read, so I/O does happen before the coordinate
validation. -/
theorem usage_order_c10_counterexample :
    do_edit [0, 0, 0, 0] none (some 0) (some 0) none none (some [97]) =
      ⟨EditResult.usageError, [0, 0, 0, 0],
        [Ev.evOpenRead, Ev.evUsageExit]⟩ ∧
    (do_edit [0, 0, 0, 0] none (some 0) (some 0) none none
      (some [97])).events.head? = some Ev.evOpenRead := by
  decide

/-- C10 amended: a non-integer dimension, x or z argument raises the usage
error only after the target file has been opened, read and decoded; the
validation still happens before any modification — the file is never
written and its bytes stay identical. -/
theorem usage_order_c10_amended (content : List Nat) (samples : List Sample)
    (rest : List Nat) (m l ore : Option (List Nat)) (dA xA zA : Option Int)
    (hread : Sample.read_list_from content = some (samples, rest))
    (hbad : dA = none ∨ xA = none ∨ zA = none) :
    do_edit content dA xA zA m l ore =
      ⟨EditResult.usageError, content, [Ev.evOpenRead, Ev.evUsageExit]⟩ := by
  simp only [do_edit, hread]
  rcases hbad with hb | hb | hb
  · subst hb
    rfl
  · subst hb
    cases dA <;> rfl
  · subst hb
    cases dA with
    | none => rfl
    | some dv => cases xA <;> rfl

/-- C10 amended witness: the usage-error outcome at a concrete decodable
file and a missing x argument. -/
theorem usage_order_c10_amended_witness :
    do_edit [0, 0, 0, 0] (some 1) none (some 2) (some [88]) none none =
      ⟨EditResult.usageError, [0, 0, 0, 0],
        [Ev.evOpenRead, Ev.evUsageExit]⟩ :=
  usage_order_c10_amended [0, 0, 0, 0] [] [] (some [88]) none none
    (some 1) none (some 2) (by decide) (Or.inr (Or.inl rfl))

end Tracker
